import Mathlib

/-!
Verification of the path-addressed tree engine of `lazypost`.

The definitions below are a shallow embedding of the Rust source:

* `src/api/models.rs` — the `Item` tree (folders / request leaves);
* `src/app.rs` — `flatten_recursive`, `App::flatten_items`,
  `get_item_at_path`, `insert_item_recursive`, `search_items_recursive`,
  the search state machine (`start_search`, `search_input_char`,
  `cancel_search`, `expand_to_path`), `App::toggle_favorite`,
  `App::save_last_state`;
* `src/config.rs` — `FavoriteRequest`, `add_favorite_request`,
  `remove_favorite_request`, `is_request_favorite`, `set_last_workspace`;
* `src/ui/json_viewer.rs` — `JsonViewerState::find_matches`.

Machine integers (`usize`) are modelled as `Nat`; the sentinel
`usize::MAX` is the explicit constant `2 ^ 64 - 1`.  Rust `HashSet` /
`Vec` collections are modelled as Lean lists (`contains` = membership).
Rust `String` is Lean `String`; `str::to_lowercase` is modelled as a
character-wise `Char.toLower` map and `str::contains` as substring
containment on the character list.
-/

/-- The constant `usize::MAX`, used by the source as the sentinel index of the
synthetic Favorites pseudo-folder (`vec![usize::MAX]`). -/
def usizeMax : Nat := 2 ^ 64 - 1

/-- Whether `pat` is an initial run of `hay` (helper for substring containment). -/
def startsWithChars : List Char → List Char → Bool
  | _, [] => true
  | [], _ :: _ => false
  | h :: hs, p :: ps => h == p && startsWithChars hs ps

/-- Whether `pat` occurs contiguously somewhere inside `hay`. -/
def charsContain : List Char → List Char → Bool
  | hay, pat =>
    startsWithChars hay pat ||
      (match hay with
       | [] => false
       | _ :: hs => charsContain hs pat)

/-- Character-wise lowercasing, modelling `str::to_lowercase`. -/
def strLower (s : String) : String := ⟨s.data.map Char.toLower⟩

/-- Substring containment, modelling `str::contains(&str)`. -/
def strContains (hay pat : String) : Bool := charsContain hay.data pat.data

/-- Request payload (`src/api/models.rs`, `struct Request`).  The claims
never inspect the payload, only move it around unchanged, so the header /
body / description fields are carried as plain data. -/
structure Request where
  method : String
  url : String
  body : Option String
  deriving Repr, DecidableEq, Inhabited

/-- Collection tree node (`src/api/models.rs`, `enum Item`): a request
leaf (`RequestItem { id, name, request, .. }`) or a folder
(`Folder { name, item, .. }`).  The `response` / `description` fields are
never read by the verified operations and are elided. -/
inductive Item where
  | request (id : Option String) (name : String) (req : Request) : Item
  | folder (name : String) (item : List Item) : Item
  deriving Inhabited

/-- One display row (`src/app.rs`, `struct FlatItem`). -/
structure FlatItem where
  name : String
  depth : Nat
  is_folder : Bool
  expanded : Bool
  request : Option Request
  request_id : Option String
  path : List Nat
  deriving Repr, DecidableEq, Inhabited

/-- A favorited request (`src/config.rs`, `struct FavoriteRequest`). -/
structure FavoriteRequest where
  collection_uid : String
  path : List Nat
  deriving Repr, DecidableEq, Inhabited

/-- Persisted last-selection state (`src/config.rs`, `struct LastState`). -/
structure LastState where
  collection_uid : String
  request_path : List Nat
  environment_uid : Option String
  workspace_id : Option String
  deriving Repr, DecidableEq, Inhabited

/-- Model of `get_item_at_path` (`src/app.rs:1987`): descend index by index;
`None` for the empty path, an out-of-range index, or a path continuing
past a request leaf; otherwise the node's name, its request payload (for
a leaf) and its id. -/
def get_item_at_path : List Item → List Nat → Option (String × Option Request × Option String)
  | _, [] => none
  | items, index :: rem =>
    match items[index]? with
    | none => none
    | some (Item.folder name children) =>
        if rem = [] then some (name, none, none) else get_item_at_path children rem
    | some (Item.request id name req) =>
        if rem = [] then some (name, some req, id) else none

/-- Reference addressing function: the node sitting at a (non-empty)
path, if any.  This is the specification-level notion of "the node a
Path addresses" against which `get_item_at_path` is checked. -/
def nodeAtPath : List Item → List Nat → Option Item
  | _, [] => none
  | items, index :: rem =>
    match items[index]? with
    | none => none
    | some item =>
        if rem = [] then some item
        else
          match item with
          | Item.folder _ children => nodeAtPath children rem
          | Item.request _ _ _ => none

/-- The (name, payload, id) triple `get_item_at_path` reports for a node. -/
def itemInfo : Item → String × Option Request × Option String
  | Item.request id name req => (name, some req, id)
  | Item.folder name _ => (name, none, none)

/-- Body of `flatten_recursive` (`src/app.rs:1945`), with the
`enumerate` counter made explicit: `i` is the index of the first element
of `items` within its parent's child list.  A folder row is emitted
always; its children are traversed only when its path is in
`expanded_folders` (the source pushes the folder row, then recurses if
expanded, then continues the loop). -/
def flatten_recursive_from (items : List Item) (depth : Nat) (path : List Nat)
    (expanded_folders : List (List Nat)) (i : Nat) : List FlatItem :=
  match items with
  | [] => []
  | Item.folder name children :: rest =>
      let current_path := path ++ [i]
      let is_expanded := expanded_folders.contains current_path
      { name := name, depth := depth, is_folder := true, expanded := is_expanded,
        request := none, request_id := none, path := current_path } ::
      ((if is_expanded then
          flatten_recursive_from children (depth + 1) current_path expanded_folders 0
        else []) ++
        flatten_recursive_from rest depth path expanded_folders (i + 1))
  | Item.request id name req :: rest =>
      let current_path := path ++ [i]
      { name := name, depth := depth, is_folder := false, expanded := false,
        request := some req, request_id := id, path := current_path } ::
      flatten_recursive_from rest depth path expanded_folders (i + 1)
  termination_by sizeOf items

/-- Model of `flatten_recursive` (`src/app.rs:1945`): the Rust function starts its
`enumerate` loop at index 0. -/
def flatten_recursive (items : List Item) (depth : Nat) (path : List Nat)
    (expanded_folders : List (List Nat)) : List FlatItem :=
  flatten_recursive_from items depth path expanded_folders 0

/-- Body of `search_items_recursive` (`src/app.rs:2047`), with the
`enumerate` counter explicit.  A folder both contributes a match (when
its lowercased name contains the query) and is always recursed into. -/
def search_items_from (items : List Item) (query : String) (path : List Nat)
    (i : Nat) : List (List Nat) :=
  match items with
  | [] => []
  | Item.folder name children :: rest =>
      let current_path := path ++ [i]
      (if strContains (strLower name) query then [current_path] else []) ++
      (search_items_from children query current_path 0 ++
        search_items_from rest query path (i + 1))
  | Item.request _ name _ :: rest =>
      let current_path := path ++ [i]
      (if strContains (strLower name) query then [current_path] else []) ++
      search_items_from rest query path (i + 1)
  termination_by sizeOf items

/-- Model of `search_items_recursive` (`src/app.rs:2047`). -/
def search_items_recursive (items : List Item) (query : String)
    (path : List Nat) : List (List Nat) :=
  search_items_from items query path 0

/-- Specification-level pre-order enumeration of a tree: every node's
(path, name) pair in depth-first pre-order, starting the sibling count
at `i` under the prefix `path`. -/
def preorderEntriesFrom (items : List Item) (path : List Nat) (i : Nat) :
    List (List Nat × String) :=
  match items with
  | [] => []
  | Item.folder name children :: rest =>
      (path ++ [i], name) ::
      (preorderEntriesFrom children (path ++ [i]) 0 ++
        preorderEntriesFrom rest path (i + 1))
  | Item.request _ name _ :: rest =>
      (path ++ [i], name) :: preorderEntriesFrom rest path (i + 1)
  termination_by sizeOf items

/-- Pre-order (path, name) enumeration of a whole tree. -/
def preorderEntries (items : List Item) : List (List Nat × String) :=
  preorderEntriesFrom items [] 0

/-- Case-insensitive containment as the spec states it: the lowercased
name contains the lowercased query. -/
def ciContains (name query : String) : Bool :=
  strContains (strLower name) (strLower query)

/-- Whether a node is a folder. -/
def isFolderItem : Item → Bool
  | Item.folder _ _ => true
  | Item.request _ _ _ => false

/-- The favorited paths of the current collection, in the order they are
stored in `config.favorite_requests` (`src/app.rs:1022`); that storage
order is insertion order, because `add_favorite_request` pushes at the
end. -/
def favoritePathsOf (favs : List FavoriteRequest) (uid : String) : List (List Nat) :=
  (favs.filter (fun f => f.collection_uid == uid)).map (fun f => f.path)

/-- The Favorites pseudo-folder is expanded unless its sentinel path was
explicitly collapsed into `expanded_folders` (`src/app.rs:1031`). -/
def favoritesExpandedOf (expanded_folders : List (List Nat)) : Bool :=
  !(expanded_folders.contains [usizeMax])

/-- One row of the Favorites section (`src/app.rs:1044`): a favorited
path is emitted only if it resolves, at depth 1, carrying its real path. -/
def mkFavoriteRow (items : List Item) (fav_path : List Nat) : Option FlatItem :=
  (get_item_at_path items fav_path).map (fun info =>
    { name := info.1, depth := 1, is_folder := false, expanded := false,
      request := info.2.1, request_id := info.2.2, path := fav_path })

/-- The rows of the Favorites section, in `favorite_paths` order. -/
def favoriteRows (items : List Item) (favorite_paths : List (List Nat)) : List FlatItem :=
  favorite_paths.filterMap (mkFavoriteRow items)

/-- Model of `App::flatten_items` (`src/app.rs:1012`): the Favorites section (when
the overlay filtered to the current collection is non-empty) followed by
the base-tree projection. -/
def flatten_items (items : List Item) (expanded_folders : List (List Nat))
    (collection_uid : String) (favs : List FavoriteRequest) : List FlatItem :=
  let favorite_paths := favoritePathsOf favs collection_uid
  (if favorite_paths.isEmpty then []
   else
     let favorites_expanded := favoritesExpandedOf expanded_folders
     { name := "Favorites", depth := 0, is_folder := true,
       expanded := favorites_expanded, request := none, request_id := none,
       path := [usizeMax] } ::
     (if favorites_expanded then favoriteRows items favorite_paths else []))
  ++ flatten_recursive items 0 [] expanded_folders

/-- A concrete tree and overlay shared by several checks: one folder "A"
holding the requests "foo" and "bar". -/
def exReq : Request := { method := "GET", url := "http://x", body := none }

def exTree : List Item :=
  [Item.folder "A" [Item.request none "foo" exReq, Item.request none "bar" exReq]]

/-- Favorites recorded with `[0, 1]` ("bar") favorited before `[0, 0]`
("foo"): insertion order is the reverse of Tree pre-order. -/
def exFavsRev : List FavoriteRequest := [⟨"u", [0, 1]⟩, ⟨"u", [0, 0]⟩]

/-- Model of `Config::add_favorite_request` (`src/config.rs:105`): push the pair
unless an equal entry is already present. -/
def add_favorite_request (favs : List FavoriteRequest) (collection_uid : String)
    (path : List Nat) : List FavoriteRequest :=
  if ({ collection_uid := collection_uid, path := path } : FavoriteRequest) ∈ favs
  then favs
  else favs ++ [{ collection_uid := collection_uid, path := path }]

/-- Model of `Config::remove_favorite_request` (`src/config.rs:112`): retain the
entries that do not match the pair. -/
def remove_favorite_request (favs : List FavoriteRequest)
    (collection_uid : String) (path : List Nat) : List FavoriteRequest :=
  favs.filter (fun f =>
    !(f.collection_uid == collection_uid && f.path == path))

/-- Model of `Config::is_request_favorite` (`src/config.rs:116`). -/
def is_request_favorite (favs : List FavoriteRequest) (collection_uid : String)
    (path : List Nat) : Bool :=
  favs.any (fun f => f.collection_uid == collection_uid && f.path == path)

/-- The favorite-toggle step of `App::toggle_favorite` on the requests
pane (`src/app.rs:236`), applied to a given (collection, path) pair. -/
def toggle_favorite_pair (favs : List FavoriteRequest) (collection_uid : String)
    (path : List Nat) : List FavoriteRequest :=
  if is_request_favorite favs collection_uid path then
    remove_favorite_request favs collection_uid path
  else
    add_favorite_request favs collection_uid path

/-- The state `App::toggle_favorite` can touch that the tree engine
cares about: the favorites overlay and the loaded collection tree.  The
source mutates only `config.favorite_requests` (plus status/selection
bookkeeping); `current_collection` is never written. -/
structure FavState where
  favorite_requests : List FavoriteRequest
  items : List Item

/-- Favorite toggle at the state level: overlay flipped, tree untouched. -/
def toggle_favorite_state (s : FavState) (collection_uid : String)
    (path : List Nat) : FavState :=
  { s with
    favorite_requests :=
      toggle_favorite_pair s.favorite_requests collection_uid path }

/-- Model of `insert_item_recursive` (`src/app.rs:2021`): descend toward the
target; on an out-of-range index or a request in the way, append at the
current level instead of failing; at the end of the path, append to the
current folder's children. -/
def insert_item_recursive : List Item → List Nat → Item → List Item
  | items, [], new_item => items ++ [new_item]
  | items, index :: rem, new_item =>
    match items[index]? with
    | none => items ++ [new_item]
    | some (Item.folder name children) =>
        items.set index (Item.folder name (insert_item_recursive children rem new_item))
    | some (Item.request _ _ _) => items ++ [new_item]

/-- Model of `insert_item_at_path` (`src/app.rs:2017`). -/
def insert_item_at_path (items : List Item) (path : List Nat) (new_item : Item) :
    List Item :=
  insert_item_recursive items path new_item

mutual

/-- Total number of nodes in one subtree. -/
def countItem : Item → Nat
  | Item.request _ _ _ => 1
  | Item.folder _ children => 1 + countItems children

/-- Total number of nodes in an item list (all depths). -/
def countItems : List Item → Nat
  | [] => 0
  | x :: rest => countItem x + countItems rest

end

/-- The child list sitting at a folder path (the whole list at `[]`). -/
def childrenAtPath : List Item → List Nat → Option (List Item)
  | items, [] => some items
  | items, index :: rem =>
    match items[index]? with
    | some (Item.folder _ children) => childrenAtPath children rem
    | _ => none

/-- The level `insert_item_recursive` actually lands in: the longest
initial run of the target path that keeps hitting folders. -/
def insertStopPath : List Item → List Nat → List Nat
  | _, [] => []
  | items, index :: rem =>
    match items[index]? with
    | some (Item.folder _ children) => index :: insertStopPath children rem
    | _ => []

/-- The request-path value `App::save_last_state` hands to
`set_last_state` (`src/app.rs:1140`): empty when the row list is empty,
otherwise the selected row's path with any sentinel-bearing path
replaced by the empty path ("TOML can't serialize it").  The source
indexes `flat_items[selected_item_index]` under the app's in-bounds
selection invariant; out of bounds the model reads the default row
(whose path is empty). -/
def save_last_state_path (flat_items : List FlatItem)
    (selected_item_index : Nat) : List Nat :=
  if flat_items.isEmpty then []
  else if ((flat_items.getD selected_item_index default).path).contains usizeMax
  then []
  else (flat_items.getD selected_item_index default).path

/-- Model of `Config::set_last_workspace` (`src/config.rs:143`): update (and
sanitize) an existing last-state, or create a minimal one for a new
workspace id. -/
def set_last_workspace (last_state : Option LastState)
    (workspace_id : Option String) : Option LastState :=
  match last_state with
  | some st =>
      some { st with
        workspace_id := workspace_id
        request_path :=
          if st.request_path.contains usizeMax then [] else st.request_path }
  | none =>
    match workspace_id with
    | some id =>
        some { collection_uid := ""
               request_path := []
               environment_uid := none
               workspace_id := some id }
    | none => none

/-- The requests-pane branch of `App::toggle_favorite`
(`src/app.rs:224`): nothing happens on an empty row list or on the
Favorites pseudo-folder row (path exactly `[usize::MAX]`); otherwise the
selected row's (collection, path) pair is toggled. -/
def toggle_favorite_requests_pane (flat_items : List FlatItem)
    (selected_item_index : Nat) (collection_uid : String)
    (favs : List FavoriteRequest) : List FavoriteRequest :=
  if flat_items.isEmpty then favs
  else
    let item := flat_items.getD selected_item_index default
    if item.path = [usizeMax] then favs
    else toggle_favorite_pair favs collection_uid item.path

mutual

/-- Every folder of the subtree has at most `usize::MAX` children (true
of any tree a Rust `Vec` can hold). -/
def arityOkItem : Item → Bool
  | Item.request _ _ _ => true
  | Item.folder _ children =>
      decide (children.length ≤ usizeMax) && arityOkItems children

def arityOkItems : List Item → Bool
  | [] => true
  | x :: rest => arityOkItem x && arityOkItems rest

end

/-- The whole tree (its root list included) has Vec-sized child lists. -/
def treeArityOk (items : List Item) : Bool :=
  decide (items.length ≤ usizeMax) && arityOkItems items

/-- Model of `enum FocusedPane` (`src/app.rs:19`). -/
inductive FocusedPane where
  | collections
  | requests
  | preview
  | response
  deriving Repr, DecidableEq, Inhabited

/-- Model of `enum InputMode` (`src/app.rs:27`), restricted to the variants the
search state machine moves between. -/
inductive InputMode where
  | normal
  | search
  deriving Repr, DecidableEq, Inhabited

/-- The slice of `App` state (`src/app.rs:86`) that the request/collection
search state machine reads and writes.  `collection_names` stands for
the collection list (only names are read by the search);
`current_items` for `current_collection.item`; status-bar text and
preview fields are rendering concerns outside the model. -/
structure SearchApp where
  focused_pane : FocusedPane
  collection_names : List String
  current_items : List Item
  collection_uid : String
  favorite_requests : List FavoriteRequest
  flat_items : List FlatItem
  selected_collection_index : Nat
  selected_item_index : Nat
  expanded_folders : List (List Nat)
  search_query : String
  search_matches : List Nat
  search_match_paths : List (List Nat)
  current_match_index : Nat
  pre_search_index : Nat
  input_mode : InputMode
  deriving Inhabited

/-- Re-running `App::flatten_items` into `flat_items`. -/
def reflatten (s : SearchApp) : SearchApp :=
  { s with
    flat_items :=
      flatten_items s.current_items s.expanded_folders s.collection_uid
        s.favorite_requests }

/-- Model of `App::start_search` (`src/app.rs:1676`): no-op on the preview pane;
otherwise clear the query and matches and remember the current selection
index in `pre_search_index`. -/
def start_search (s : SearchApp) : SearchApp :=
  if s.focused_pane = FocusedPane.preview then s
  else
    { s with
      search_query := ""
      search_matches := []
      current_match_index := 0
      pre_search_index :=
        match s.focused_pane with
        | FocusedPane.collections => s.selected_collection_index
        | FocusedPane.requests => s.selected_item_index
        | _ => 0
      input_mode := InputMode.search }

/-- Model of `App::update_search_matches` (`src/app.rs:1720`): clear both match
lists; for a non-empty query recompute the pane's matches from scratch
with the lowercased query. -/
def update_search_matches (s : SearchApp) : SearchApp :=
  if s.search_query = "" then
    { s with search_matches := [], search_match_paths := [] }
  else
    match s.focused_pane with
    | FocusedPane.collections =>
        { s with
          search_match_paths := []
          search_matches :=
            (List.range s.collection_names.length).filter (fun i =>
              strContains (strLower (s.collection_names.getD i ""))
                (strLower s.search_query)) }
    | FocusedPane.requests =>
        { s with
          search_matches := []
          search_match_paths :=
            search_items_recursive s.current_items
              (strLower s.search_query) [] }
    | _ => { s with search_matches := [], search_match_paths := [] }

/-- Model of `App::expand_to_path` (`src/app.rs:1229`): insert every proper
non-empty ancestor prefix of the target into `expanded_folders`, then
re-flatten. -/
def expand_to_path (s : SearchApp) (target_path : List Nat) : SearchApp :=
  reflatten
    { s with
      expanded_folders :=
        ((List.range target_path.length).drop 1).foldl
          (fun E i =>
            if (target_path.take i) ∈ E then E else E ++ [target_path.take i])
          s.expanded_folders }

/-- Model of `App::jump_to_current_match` (`src/app.rs:1773`). -/
def jump_to_current_match (s : SearchApp) : SearchApp :=
  match s.focused_pane with
  | FocusedPane.collections =>
      match s.search_matches.get? s.current_match_index with
      | some index => { s with selected_collection_index := index }
      | none => s
  | FocusedPane.requests =>
      match s.search_match_paths.get? s.current_match_index with
      | some path =>
          let s := expand_to_path s path
          match (List.range s.flat_items.length).find?
              (fun i => (s.flat_items.getD i default).path = path) with
          | some item_index => { s with selected_item_index := item_index }
          | none => s
      | none => s
  | _ => s

/-- Whether the focused pane's freshly recomputed match list is
non-empty (`src/app.rs:1695`). -/
def search_has_matches (s : SearchApp) : Bool :=
  if s.focused_pane = FocusedPane.requests then
    !s.search_match_paths.isEmpty
  else
    !s.search_matches.isEmpty

/-- When there are matches, reset the cursor to the first one and jump
to it (`src/app.rs:1700`). -/
def search_jump_if_matches (s : SearchApp) : SearchApp :=
  if search_has_matches s then
    jump_to_current_match { s with current_match_index := 0 }
  else s

/-- Model of `App::search_input_char` (`src/app.rs:1692`): push the character,
recompute the matches, and jump to the first match if any. -/
def search_input_char (s : SearchApp) (c : Char) : SearchApp :=
  search_jump_if_matches
    (update_search_matches { s with search_query := s.search_query.push c })

/-- Model of `App::cancel_search` (`src/app.rs:1804`): restore the pre-search
selection for the focused pane, clear the query and `search_matches`,
return to normal mode. -/
def cancel_search (s : SearchApp) : SearchApp :=
  let s :=
    match s.focused_pane with
    | FocusedPane.collections =>
        { s with selected_collection_index := s.pre_search_index }
    | FocusedPane.requests =>
        { s with selected_item_index := s.pre_search_index }
    | _ => s
  { s with
    search_query := ""
    search_matches := []
    input_mode := InputMode.normal }

/-- Typing a whole query: one `search_input_char` per character. -/
def apply_search_chars (s : SearchApp) (cs : List Char) : SearchApp :=
  cs.foldl search_input_char s

/-- A concrete app state on the requests pane with `exTree` loaded. -/
def exSearchApp : SearchApp where
  focused_pane := FocusedPane.requests
  collection_names := ["C"]
  current_items := exTree
  collection_uid := "u"
  favorite_requests := []
  flat_items := flatten_items exTree [] "u" []
  selected_collection_index := 0
  selected_item_index := 0
  expanded_folders := []
  search_query := ""
  search_matches := []
  search_match_paths := []
  current_match_index := 0
  pre_search_index := 0
  input_mode := InputMode.normal

/-- Model of `JsonPathSegment` (`src/ui/json_viewer.rs:8`). -/
inductive JsonPathSegment where
  | root
  | key (s : String)
  | index (i : Nat)
  deriving Repr, DecidableEq, Inhabited

/-- A parsed JSON value (`serde_json::Value`).  A number is carried as
the text `n.to_string()` renders, which is all `find_matches` reads of
it; object entries are listed in the map's iteration order. -/
inductive Json where
  | str (s : String)
  | num (text : String)
  | jbool (b : Bool)
  | null
  | arr (elems : List Json)
  | obj (entries : List (String × Json))

mutual

/-- Model of `JsonViewerState::find_matches` (`src/ui/json_viewer.rs:184`):
collect child paths of object entries whose key matches, or (key not
matching) whose string/number value matches; likewise string/number
array elements; recurse into every child.  Keys and strings are
compared lowercased, number text verbatim; a non-container root value
itself is never examined. -/
def find_matches (v : Json) (path : List JsonPathSegment) (q : String) :
    List (List JsonPathSegment) :=
  match v with
  | Json.obj entries => find_matches_obj entries path q
  | Json.arr elems => find_matches_arr elems 0 path q
  | _ => []

def find_matches_obj (entries : List (String × Json))
    (path : List JsonPathSegment) (q : String) :
    List (List JsonPathSegment) :=
  match entries with
  | [] => []
  | (k, v) :: rest =>
      (if strContains (strLower k) q then [path ++ [JsonPathSegment.key k]]
       else
         match v with
         | Json.str sv =>
             if strContains (strLower sv) q
             then [path ++ [JsonPathSegment.key k]] else []
         | Json.num n =>
             if strContains n q then [path ++ [JsonPathSegment.key k]] else []
         | _ => []) ++
      (find_matches v (path ++ [JsonPathSegment.key k]) q ++
        find_matches_obj rest path q)

def find_matches_arr (elems : List Json) (i : Nat)
    (path : List JsonPathSegment) (q : String) :
    List (List JsonPathSegment) :=
  match elems with
  | [] => []
  | v :: rest =>
      (match v with
       | Json.str sv =>
           if strContains (strLower sv) q
           then [path ++ [JsonPathSegment.index i]] else []
       | Json.num n =>
           if strContains n q then [path ++ [JsonPathSegment.index i]] else []
       | _ => []) ++
      (find_matches v (path ++ [JsonPathSegment.index i]) q ++
        find_matches_arr rest (i + 1) path q)

end

mutual

/-- Specification-level enumeration of every child position of a JSON
value in traversal order: (child path, object key if any, child value). -/
def jsonEntries (v : Json) (path : List JsonPathSegment) :
    List (List JsonPathSegment × Option String × Json) :=
  match v with
  | Json.obj entries => jsonEntriesObj entries path
  | Json.arr elems => jsonEntriesArr elems 0 path
  | _ => []

def jsonEntriesObj (entries : List (String × Json))
    (path : List JsonPathSegment) :
    List (List JsonPathSegment × Option String × Json) :=
  match entries with
  | [] => []
  | (k, v) :: rest =>
      (path ++ [JsonPathSegment.key k], some k, v) ::
      (jsonEntries v (path ++ [JsonPathSegment.key k]) ++
        jsonEntriesObj rest path)

def jsonEntriesArr (elems : List Json) (i : Nat)
    (path : List JsonPathSegment) :
    List (List JsonPathSegment × Option String × Json) :=
  match elems with
  | [] => []
  | v :: rest =>
      (path ++ [JsonPathSegment.index i], none, v) ::
      (jsonEntries v (path ++ [JsonPathSegment.index i]) ++
        jsonEntriesArr rest (i + 1) path)

end

/-- Whether one child position is matched by the query: its key (if it
has one) matches lowercased, or its value is a string matching
lowercased or a number whose text matches verbatim; booleans and nulls
never match by value. -/
def entryMatches (k? : Option String) (v : Json) (q : String) : Bool :=
  (match k? with
   | some k => strContains (strLower k) q
   | none => false) ||
  (match v with
   | Json.str sv => strContains (strLower sv) q
   | Json.num n => strContains n q
   | _ => false)

theorem get_item_at_path_eq_nodeAtPath (items : List Item) (p : List Nat) :
    get_item_at_path items p = (nodeAtPath items p).map itemInfo := by
  induction p generalizing items with
  | nil => simp [get_item_at_path, nodeAtPath]
  | cons index rem ih =>
    rw [get_item_at_path, nodeAtPath]
    cases h : items[index]? with
    | none => simp
    | some item =>
      cases item with
      | folder name children =>
        by_cases hrem : rem = [] <;> simp [hrem, itemInfo, ih]
      | request id name req =>
        by_cases hrem : rem = [] <;> simp [hrem, itemInfo]

theorem nodeAtPath_cons_succ (x : Item) (items : List Item) (j : Nat) (tail : List Nat) :
    nodeAtPath (x :: items) ((j + 1) :: tail) = nodeAtPath items (j :: tail) := by
  rw [nodeAtPath, nodeAtPath, List.getElem?_cons_succ]

theorem take_append_cons (pre : List Nat) (x : Nat) (l : List Nat) :
    (pre ++ x :: l).take (pre.length + 1) = pre ++ [x] := by
  rw [List.take_append_eq_append_take]
  simp

theorem mem_of_listContains {l : List (List Nat)} {a : List Nat}
    (h : l.contains a = true) : a ∈ l := by
  simpa using h

theorem not_mem_of_contains_eq_false {α : Type} [BEq α] [LawfulBEq α]
    {l : List α} {a : α} (h : l.contains a = false) : a ∉ l := by
  intro hm
  rw [List.contains_eq_any_beq] at h
  have hx := List.any_eq_false.mp h a hm
  simp at hx

theorem listContains_of_mem {l : List (List Nat)} {a : List Nat}
    (h : a ∈ l) : l.contains a = true := by
  simpa using h

/-- Soundness half of the projection characterization: every row emitted
by `flatten_recursive_from` corresponds to a node of the tree, and every
strict extension of the starting prefix along the row's path is an
expanded folder path. -/
theorem flatten_from_sound (items : List Item) (depth : Nat) (pre : List Nat)
    (E : List (List Nat)) (i : Nat) (r : FlatItem)
    (hr : r ∈ flatten_recursive_from items depth pre E i) :
    ∃ j tail item, r.path = pre ++ (i + j) :: tail ∧
      nodeAtPath items (j :: tail) = some item ∧
      r.is_folder = isFolderItem item ∧
      ∀ n, pre.length < n → n < r.path.length → r.path.take n ∈ E := by
  cases items with
  | nil => simp [flatten_recursive_from] at hr
  | cons head rest =>
    cases head with
    | folder name children =>
      rw [flatten_recursive_from] at hr
      simp only [List.mem_cons, List.mem_append] at hr
      rcases hr with hr | hr | hr
      · refine ⟨0, [], Item.folder name children, ?_, ?_, ?_, ?_⟩
        · rw [hr]; simp
        · rw [nodeAtPath]; simp
        · rw [hr]; simp [isFolderItem]
        · intro n h1 h2
          rw [hr] at h2
          simp at h2
          omega
      · by_cases hexp : E.contains (pre ++ [i]) = true
        · rw [if_pos hexp] at hr
          obtain ⟨j', tail', item, hpath, hnode, hfold, hcond⟩ :=
            flatten_from_sound children (depth + 1) (pre ++ [i]) E 0 r hr
          refine ⟨0, j' :: tail', item, ?_, ?_, hfold, ?_⟩
          · rw [hpath]; simp
          · rw [nodeAtPath]; simpa using hnode
          · intro n h1 h2
            rcases Nat.lt_or_ge n (pre.length + 2) with hn | hn
            · have hn1 : n = pre.length + 1 := by omega
              have hp : r.path = pre ++ i :: (0 + j') :: tail' := by
                rw [hpath]; simp
              rw [hn1, hp, take_append_cons]
              exact mem_of_listContains hexp
            · refine hcond n ?_ h2
              simp
              omega
        · rw [if_neg hexp] at hr
          simp at hr
      · obtain ⟨j'', tail, item, hpath, hnode, hfold, hcond⟩ :=
          flatten_from_sound rest depth pre E (i + 1) r hr
        refine ⟨j'' + 1, tail, item, ?_, ?_, hfold, hcond⟩
        · rw [hpath]
          have : i + 1 + j'' = i + (j'' + 1) := by omega
          rw [this]
        · rw [nodeAtPath_cons_succ]; exact hnode
    | request id name req =>
      rw [flatten_recursive_from] at hr
      simp only [List.mem_cons] at hr
      rcases hr with hr | hr
      · refine ⟨0, [], Item.request id name req, ?_, ?_, ?_, ?_⟩
        · rw [hr]; simp
        · rw [nodeAtPath]; simp
        · rw [hr]; simp [isFolderItem]
        · intro n h1 h2
          rw [hr] at h2
          simp at h2
          omega
      · obtain ⟨j'', tail, item, hpath, hnode, hfold, hcond⟩ :=
          flatten_from_sound rest depth pre E (i + 1) r hr
        refine ⟨j'' + 1, tail, item, ?_, ?_, hfold, hcond⟩
        · rw [hpath]
          have : i + 1 + j'' = i + (j'' + 1) := by omega
          rw [this]
        · rw [nodeAtPath_cons_succ]; exact hnode
  termination_by sizeOf items

/-- Completeness half of the projection characterization: a node whose
path extensions beyond the starting prefix are all expanded does get a
row, with matching folder flag. -/
theorem flatten_from_complete (items : List Item) (depth : Nat) (pre : List Nat)
    (E : List (List Nat)) (i j : Nat) (tail : List Nat) (item : Item)
    (hnode : nodeAtPath items (j :: tail) = some item)
    (hcond : ∀ n, pre.length < n → n < (pre ++ (i + j) :: tail).length →
      (pre ++ (i + j) :: tail).take n ∈ E) :
    ∃ r, r ∈ flatten_recursive_from items depth pre E i ∧
      r.path = pre ++ (i + j) :: tail ∧ r.is_folder = isFolderItem item := by
  cases items with
  | nil =>
    rw [nodeAtPath] at hnode
    simp at hnode
  | cons head rest =>
    cases j with
    | zero =>
      cases tail with
      | nil =>
        rw [nodeAtPath] at hnode
        simp at hnode
        cases head with
        | folder name children =>
          rw [flatten_recursive_from]
          refine ⟨_, List.mem_cons_self _ _, ?_, ?_⟩
          · simp
          · rw [← hnode]; simp [isFolderItem]
        | request id name req =>
          rw [flatten_recursive_from]
          refine ⟨_, List.mem_cons_self _ _, ?_, ?_⟩
          · simp
          · rw [← hnode]; simp [isFolderItem]
      | cons t ts =>
        cases head with
        | request id name req =>
          rw [nodeAtPath] at hnode
          simp at hnode
        | folder name children =>
          rw [nodeAtPath] at hnode
          simp at hnode
          have hexp : E.contains (pre ++ [i]) = true := by
            apply listContains_of_mem
            have h1 := hcond (pre.length + 1) (by omega)
              (by simp)
            rw [show i + 0 = i from rfl, take_append_cons] at h1
            exact h1
          obtain ⟨r, hmem, hpath, hfold⟩ :=
            flatten_from_complete children (depth + 1) (pre ++ [i]) E 0 t ts item
              (by simpa using hnode)
              (by
                intro n h1 h2
                have e : (pre ++ [i]) ++ (0 + t) :: ts = pre ++ (i + 0) :: t :: ts := by
                  simp
                rw [e] at h2 ⊢
                refine hcond n ?_ h2
                simp at h1
                omega)
          refine ⟨r, ?_, ?_, hfold⟩
          · rw [flatten_recursive_from]
            simp only [List.mem_cons, List.mem_append]
            right; left
            rw [if_pos hexp]
            exact hmem
          · rw [hpath]; simp
    | succ s =>
      rw [nodeAtPath_cons_succ] at hnode
      obtain ⟨r, hmem, hpath, hfold⟩ :=
        flatten_from_complete rest depth pre E (i + 1) s tail item hnode
          (by
            have e : i + 1 + s = i + (s + 1) := by omega
            rw [e]
            exact hcond)
      refine ⟨r, ?_, ?_, hfold⟩
      · cases head with
        | folder name children =>
          rw [flatten_recursive_from]
          simp only [List.mem_cons, List.mem_append]
          right; right
          exact hmem
        | request id name req =>
          rw [flatten_recursive_from]
          simp only [List.mem_cons]
          right
          exact hmem
      · rw [hpath]
        have e : i + 1 + s = i + (s + 1) := by omega
        rw [e]
  termination_by sizeOf items

/-- C1: a row for a node (and in particular a Leaf, `b = false`) at path
`p` appears in the base-tree projection `flatten_recursive items 0 [] E`
if and only if `p` addresses a node of that kind and every proper
non-empty prefix of `p` (`p.take n`, `0 < n < p.length`) is an expanded
folder path; children of a folder are thus traversed exactly when the
folder's own path is in `E`. -/
theorem flatten_row_iff_ancestors_expanded (items : List Item)
    (E : List (List Nat)) (p : List Nat) (b : Bool) :
    (∃ r, r ∈ flatten_recursive items 0 [] E ∧ r.path = p ∧ r.is_folder = b) ↔
    (∃ item, nodeAtPath items p = some item ∧ isFolderItem item = b ∧
      ∀ n, 0 < n → n < p.length → p.take n ∈ E) := by
  constructor
  · rintro ⟨r, hmem, rfl, rfl⟩
    obtain ⟨j, tail, item, hpath, hnode, hfold, hcond⟩ :=
      flatten_from_sound items 0 [] E 0 r hmem
    refine ⟨item, ?_, hfold.symm, ?_⟩
    · rw [hpath]
      simpa using hnode
    · intro n h1 h2
      exact hcond n (by simpa using h1) h2
  · rintro ⟨item, hnode, hfold, hcond⟩
    cases p with
    | nil => rw [nodeAtPath] at hnode; cases hnode
    | cons j tail =>
      obtain ⟨r, hmem, hpath, hfold'⟩ :=
        flatten_from_complete items 0 [] E 0 j tail item (by simpa using hnode)
          (by
            intro n h1 h2
            simp only [List.nil_append] at h2 ⊢
            have e : (0 + j) :: tail = j :: tail := by simp
            rw [e] at h2 ⊢
            exact hcond n (by simpa using h1) h2)
      refine ⟨r, hmem, ?_, by rw [hfold', hfold]⟩
      rw [hpath]
      simp

theorem search_from_eq_filterMap (items : List Item) (q : String)
    (path : List Nat) (i : Nat) :
    search_items_from items q path i =
      (preorderEntriesFrom items path i).filterMap
        (fun e => if strContains (strLower e.2) q then some e.1 else none) := by
  cases items with
  | nil => simp [search_items_from, preorderEntriesFrom]
  | cons head rest =>
    cases head with
    | folder name children =>
      rw [search_items_from, preorderEntriesFrom]
      rw [List.filterMap_cons, List.filterMap_append]
      rw [search_from_eq_filterMap children q (path ++ [i]) 0,
        search_from_eq_filterMap rest q path (i + 1)]
      by_cases hm : strContains (strLower name) q = true
      · simp [hm]
      · simp [hm]
    | request id name req =>
      rw [search_items_from, preorderEntriesFrom]
      rw [List.filterMap_cons]
      rw [search_from_eq_filterMap rest q path (i + 1)]
      by_cases hm : strContains (strLower name) q = true
      · simp [hm]
      · simp [hm]
  termination_by sizeOf items

/-- Every pre-order entry's path addresses a node of the tree. -/
theorem preorder_entry_resolves (items : List Item) (pre : List Nat) (i : Nat)
    (p : List Nat) (nm : String) (h : (p, nm) ∈ preorderEntriesFrom items pre i) :
    ∃ j tail item, p = pre ++ (i + j) :: tail ∧
      nodeAtPath items (j :: tail) = some item := by
  cases items with
  | nil => simp [preorderEntriesFrom] at h
  | cons head rest =>
    cases head with
    | folder name children =>
      rw [preorderEntriesFrom] at h
      simp only [List.mem_cons, List.mem_append] at h
      rcases h with h | h | h
      · refine ⟨0, [], Item.folder name children, ?_, ?_⟩
        · simpa using congrArg Prod.fst h
        · rw [nodeAtPath]; simp
      · obtain ⟨j', tail', item, hp, hnode⟩ :=
          preorder_entry_resolves children (pre ++ [i]) 0 p nm h
        refine ⟨0, j' :: tail', item, ?_, ?_⟩
        · rw [hp]; simp
        · rw [nodeAtPath]; simpa using hnode
      · obtain ⟨j'', tail, item, hp, hnode⟩ :=
          preorder_entry_resolves rest pre (i + 1) p nm h
        refine ⟨j'' + 1, tail, item, ?_, ?_⟩
        · rw [hp]
          have e : i + 1 + j'' = i + (j'' + 1) := by omega
          rw [e]
        · rw [nodeAtPath_cons_succ]; exact hnode
    | request id name req =>
      rw [preorderEntriesFrom] at h
      simp only [List.mem_cons] at h
      rcases h with h | h
      · refine ⟨0, [], Item.request id name req, ?_, ?_⟩
        · simpa using congrArg Prod.fst h
        · rw [nodeAtPath]; simp
      · obtain ⟨j'', tail, item, hp, hnode⟩ :=
          preorder_entry_resolves rest pre (i + 1) p nm h
        refine ⟨j'' + 1, tail, item, ?_, ?_⟩
        · rw [hp]
          have e : i + 1 + j'' = i + (j'' + 1) := by omega
          rw [e]
        · rw [nodeAtPath_cons_succ]; exact hnode
  termination_by sizeOf items

/-- C4: for a non-empty, already-lowercased query, the request-pane
search returns exactly the pre-order list of paths of nodes whose name
contains the query case-insensitively (independent of any expanded set,
which the function does not even take), and every returned path
resolves via `get_item_at_path`. -/
theorem search_matches_preorder_and_resolves (items : List Item) (q : String)
    (hlow : strLower q = q) (hne : q ≠ "") :
    search_items_recursive items q [] =
      (preorderEntries items).filterMap
        (fun e => if ciContains e.2 q then some e.1 else none) ∧
    ∀ p, p ∈ search_items_recursive items q [] →
      (get_item_at_path items p).isSome := by
  have heq : search_items_recursive items q [] =
      (preorderEntries items).filterMap
        (fun e => if ciContains e.2 q then some e.1 else none) := by
    rw [search_items_recursive, preorderEntries, search_from_eq_filterMap]
    simp only [ciContains, hlow]
  refine ⟨heq, ?_⟩
  intro p hp
  rw [heq] at hp
  obtain ⟨e, he, hfe⟩ := List.mem_filterMap.mp hp
  have hep : e.1 = p := by
    by_cases hm : ciContains e.2 q = true
    · rw [if_pos hm] at hfe; exact Option.some_injective _ hfe
    · rw [if_neg hm] at hfe; cases hfe
  obtain ⟨j, tail, item, hpe, hnode⟩ :=
    preorder_entry_resolves items [] 0 e.1 e.2 (by simpa using he)
  rw [get_item_at_path_eq_nodeAtPath, ← hep, hpe]
  simp only [List.nil_append, Nat.zero_add]
  rw [hnode]
  rfl

theorem favoriteRows_paths (items : List Item) (fps : List (List Nat)) :
    (favoriteRows items fps).map (fun r => r.path) =
      fps.filter (fun p => (get_item_at_path items p).isSome) := by
  induction fps with
  | nil => simp [favoriteRows]
  | cons p rest ih =>
    rw [favoriteRows, List.filterMap_cons]
    cases hg : get_item_at_path items p with
    | none =>
      rw [show mkFavoriteRow items p = none from by simp [mkFavoriteRow, hg]]
      rw [List.filter_cons_of_neg (by simp [hg])]
      exact ih
    | some info =>
      rw [show mkFavoriteRow items p =
        some { name := info.1, depth := 1, is_folder := false, expanded := false,
               request := info.2.1, request_id := info.2.2, path := p }
        from by simp [mkFavoriteRow, hg]]
      rw [List.filter_cons_of_pos (by simp [hg])]
      simpa using ih

theorem favoriteRows_row_spec (items : List Item) (fps : List (List Nat))
    (r : FlatItem) (hr : r ∈ favoriteRows items fps) :
    r.depth = 1 ∧ r.is_folder = false ∧ r.path ∈ fps ∧
      get_item_at_path items r.path = some (r.name, r.request, r.request_id) := by
  obtain ⟨p, hp, hmk⟩ := List.mem_filterMap.mp hr
  rw [mkFavoriteRow] at hmk
  cases hg : get_item_at_path items p with
  | none => rw [hg] at hmk; cases hmk
  | some info =>
    rw [hg] at hmk
    have hr2 : { name := info.1, depth := 1, is_folder := false, expanded := false,
                 request := info.2.1, request_id := info.2.2, path := p } = r := by
      simpa using hmk
    subst hr2
    simpa using ⟨hp, hg⟩

theorem flatten_from_depth (items : List Item) (depth : Nat) (pre : List Nat)
    (E : List (List Nat)) (i : Nat) (r : FlatItem) (hlen : pre.length = depth)
    (hr : r ∈ flatten_recursive_from items depth pre E i) :
    r.path.length = r.depth + 1 := by
  cases items with
  | nil => simp [flatten_recursive_from] at hr
  | cons head rest =>
    cases head with
    | folder name children =>
      rw [flatten_recursive_from] at hr
      simp only [List.mem_cons, List.mem_append] at hr
      rcases hr with hr | hr | hr
      · rw [hr]; simp [← hlen]
      · by_cases hexp : E.contains (pre ++ [i]) = true
        · rw [if_pos hexp] at hr
          exact flatten_from_depth children (depth + 1) (pre ++ [i]) E 0 r
            (by simp [hlen]) hr
        · rw [if_neg hexp] at hr
          simp at hr
      · exact flatten_from_depth rest depth pre E (i + 1) r hlen hr
    | request id name req =>
      rw [flatten_recursive_from] at hr
      simp only [List.mem_cons] at hr
      rcases hr with hr | hr
      · rw [hr]; simp [← hlen]
      · exact flatten_from_depth rest depth pre E (i + 1) r hlen hr
  termination_by sizeOf items

/-- C10: every row of the base-tree projection started at depth 0 with
the empty prefix has a non-empty path with `depth = length path - 1`,
and every row of the Favorites section is emitted at depth exactly 1. -/
theorem flatten_depth_path_consistency (items : List Item)
    (E : List (List Nat)) :
    (∀ r, r ∈ flatten_recursive items 0 [] E →
      r.path ≠ [] ∧ r.depth + 1 = r.path.length) ∧
    (∀ fps r, r ∈ favoriteRows items fps → r.depth = 1) := by
  constructor
  · intro r hr
    have h := flatten_from_depth items 0 [] E 0 r rfl hr
    constructor
    · intro hnil
      rw [hnil] at h
      simp at h
    · omega
  · intro fps r hr
    exact (favoriteRows_row_spec items fps r hr).1

/-- C2 (amended): when the favorites overlay filtered to the current
collection is non-empty, the projection output begins with the synthetic
"Favorites" folder row (depth 0, sentinel path); when that folder's
expansion flag is true, each favorited path that resolves is emitted as
a row at depth 1 carrying its real path, those rows appearing in the
overlay's stored (insertion) order — not Tree pre-order; when the
overlay is empty no synthetic row is emitted. -/
theorem flatten_items_favorites_section (items : List Item)
    (E : List (List Nat)) (uid : String) (favs : List FavoriteRequest) :
    (favoritePathsOf favs uid = [] →
      flatten_items items E uid favs = flatten_recursive items 0 [] E) ∧
    (favoritePathsOf favs uid ≠ [] →
      flatten_items items E uid favs =
        { name := "Favorites", depth := 0, is_folder := true,
          expanded := favoritesExpandedOf E, request := none,
          request_id := none, path := [usizeMax] } ::
        ((if favoritesExpandedOf E then
            favoriteRows items (favoritePathsOf favs uid) else []) ++
          flatten_recursive items 0 [] E) ∧
      (favoriteRows items (favoritePathsOf favs uid)).map (fun r => r.path) =
        (favoritePathsOf favs uid).filter
          (fun p => (get_item_at_path items p).isSome) ∧
      ∀ r, r ∈ favoriteRows items (favoritePathsOf favs uid) →
        r.depth = 1 ∧ r.is_folder = false ∧
        r.path ∈ favoritePathsOf favs uid ∧
        get_item_at_path items r.path = some (r.name, r.request, r.request_id)) := by
  constructor
  · intro h
    rw [flatten_items]
    simp [h]
  · intro h
    refine ⟨?_, favoriteRows_paths items _, favoriteRows_row_spec items _⟩
    rw [flatten_items]
    simp only [List.isEmpty_iff]
    rw [if_neg h]
    simp

/-- C2, counterexample to the ordering clause of the original claim: on
`exTree` with both leaves favorited in reverse order and nothing
expanded, the projection emits the favorited rows as `[0,1]` then
`[0,0]` (insertion order), while Tree pre-order puts `[0,0]` before
`[0,1]`. -/
theorem flatten_items_favorites_insertion_order_cex :
    (flatten_items exTree [] "u" exFavsRev).map (fun r => r.path) =
      [[usizeMax], [0, 1], [0, 0], [0]] ∧
    (preorderEntries exTree).map (fun e => e.1) = [[0], [0, 0], [0, 1]] := by
  constructor
  · simp [flatten_items, exTree, exFavsRev, favoritePathsOf, favoritesExpandedOf,
      favoriteRows, mkFavoriteRow, get_item_at_path, flatten_recursive,
      flatten_recursive_from, usizeMax]
  · simp [preorderEntries, preorderEntriesFrom, exTree]

theorem mem_iff_is_request_favorite (favs : List FavoriteRequest)
    (uid : String) (p : List Nat) :
    is_request_favorite favs uid p = true ↔
      ({ collection_uid := uid, path := p } : FavoriteRequest) ∈ favs := by
  rw [is_request_favorite, List.any_eq_true]
  constructor
  · rintro ⟨f, hf, hp⟩
    simp only [Bool.and_eq_true, beq_iff_eq] at hp
    have : f = { collection_uid := uid, path := p } := by
      cases f; simp_all
    rw [← this]; exact hf
  · intro hf
    exact ⟨_, hf, by simp⟩

theorem mem_remove_favorite_iff (favs : List FavoriteRequest)
    (uid uid' : String) (p p' : List Nat) (hne : ¬(uid' = uid ∧ p' = p)) :
    ({ collection_uid := uid', path := p' } : FavoriteRequest) ∈
        remove_favorite_request favs uid p ↔
      ({ collection_uid := uid', path := p' } : FavoriteRequest) ∈ favs := by
  rw [remove_favorite_request, List.mem_filter]
  constructor
  · exact fun h => h.1
  · intro h
    refine ⟨h, ?_⟩
    rcases Bool.eq_false_or_eq_true (uid' == uid) with hc | hc
    · have h1 : uid' = uid := by simpa using hc
      have h2 : p' ≠ p := fun hp => hne ⟨h1, hp⟩
      simp [hc, h2]
    · simp [hc]

theorem not_mem_remove_favorite (favs : List FavoriteRequest)
    (uid : String) (p : List Nat) :
    ({ collection_uid := uid, path := p } : FavoriteRequest) ∉
      remove_favorite_request favs uid p := by
  rw [remove_favorite_request, List.mem_filter]
  rintro ⟨-, hpred⟩
  simp at hpred

theorem remove_of_not_favorite (favs : List FavoriteRequest) (uid : String)
    (p : List Nat) (h : is_request_favorite favs uid p = false) :
    remove_favorite_request favs uid p = favs := by
  rw [remove_favorite_request]
  apply List.filter_eq_self.mpr
  intro f hf
  rw [is_request_favorite] at h
  have hx := List.any_eq_false.mp h f hf
  simp only [Bool.and_eq_true, beq_iff_eq, not_and] at hx
  rcases Bool.eq_false_or_eq_true (f.collection_uid == uid) with hc | hc
  · have h1 : f.collection_uid = uid := by simpa using hc
    have h2 : f.path ≠ p := hx h1
    simp [hc, h2]
  · simp [hc]

theorem is_fav_append (a b : List FavoriteRequest) (uid : String) (p : List Nat) :
    is_request_favorite (a ++ b) uid p =
      (is_request_favorite a uid p || is_request_favorite b uid p) := by
  simp [is_request_favorite, List.any_append]

theorem is_fav_singleton_ne (uid : String) (p : List Nat) (uid' : String)
    (p' : List Nat) (hne : ¬(uid' = uid ∧ p' = p)) :
    is_request_favorite [{ collection_uid := uid, path := p }] uid' p' = false := by
  simp only [is_request_favorite, List.any_cons, List.any_nil, Bool.or_false]
  rcases Bool.eq_false_or_eq_true ((uid : String) == uid') with hc | hc
  · have h1 : uid = uid' := by simpa using hc
    have h2 : ¬ p = p' := fun hp => hne ⟨h1.symm, hp.symm⟩
    simp [hc, h2]
  · simp [hc]

theorem is_fav_remove_ne (favs : List FavoriteRequest) (uid : String)
    (p : List Nat) (uid' : String) (p' : List Nat)
    (hne : ¬(uid' = uid ∧ p' = p)) :
    is_request_favorite (remove_favorite_request favs uid p) uid' p' =
      is_request_favorite favs uid' p' := by
  have h1 := mem_iff_is_request_favorite (remove_favorite_request favs uid p) uid' p'
  have h2 := mem_iff_is_request_favorite favs uid' p'
  have h3 := mem_remove_favorite_iff favs uid uid' p p' hne
  rcases Bool.eq_false_or_eq_true
      (is_request_favorite (remove_favorite_request favs uid p) uid' p')
    with ha | ha <;>
  rcases Bool.eq_false_or_eq_true (is_request_favorite favs uid' p')
    with hb | hb
  · rw [ha, hb]
  · exact absurd (h2.mpr (h3.mp (h1.mp ha))) (by rw [hb]; simp)
  · exact absurd (h1.mpr (h3.mpr (h2.mp hb))) (by rw [ha]; simp)
  · rw [ha, hb]

theorem toggle_pair_twice (favs : List FavoriteRequest) (uid : String)
    (p : List Nat) (uid' : String) (p' : List Nat) :
    is_request_favorite
        (toggle_favorite_pair (toggle_favorite_pair favs uid p) uid p) uid' p' =
      is_request_favorite favs uid' p' := by
  rcases Bool.eq_false_or_eq_true (is_request_favorite favs uid p) with h | h
  · have e1 : toggle_favorite_pair favs uid p =
        remove_favorite_request favs uid p := by
      rw [toggle_favorite_pair, if_pos h]
    rw [e1]
    have hrm : is_request_favorite (remove_favorite_request favs uid p) uid p
        = false := by
      rcases Bool.eq_false_or_eq_true
          (is_request_favorite (remove_favorite_request favs uid p) uid p)
        with hb | hb
      · exact absurd ((mem_iff_is_request_favorite _ _ _).mp hb)
          (not_mem_remove_favorite favs uid p)
      · exact hb
    rw [toggle_favorite_pair, if_neg (by simp [hrm]), add_favorite_request,
      if_neg (not_mem_remove_favorite favs uid p)]
    by_cases he : uid' = uid ∧ p' = p
    · rcases he with ⟨rfl, rfl⟩
      rw [h, is_fav_append]
      have hone : is_request_favorite
          [({ collection_uid := uid', path := p' } : FavoriteRequest)] uid' p'
          = true := by
        simp [is_request_favorite]
      rw [hone, Bool.or_true]
    · rw [is_fav_append, is_fav_singleton_ne uid p uid' p' he, Bool.or_false]
      exact is_fav_remove_ne favs uid p uid' p' he
  · have hmem : ({ collection_uid := uid, path := p } : FavoriteRequest) ∉ favs :=
      fun hm => by
        have := (mem_iff_is_request_favorite favs uid p).mpr hm
        rw [h] at this
        cases this
    have e1 : toggle_favorite_pair favs uid p =
        favs ++ [({ collection_uid := uid, path := p } : FavoriteRequest)] := by
      rw [toggle_favorite_pair, if_neg (by simp [h]), add_favorite_request,
        if_neg hmem]
    rw [e1]
    have htrue : is_request_favorite
        (favs ++ [({ collection_uid := uid, path := p } : FavoriteRequest)])
        uid p = true := by
      rw [is_fav_append]
      have hone : is_request_favorite
          [({ collection_uid := uid, path := p } : FavoriteRequest)] uid p
          = true := by
        simp [is_request_favorite]
      rw [hone, Bool.or_true]
    rw [toggle_favorite_pair, if_pos htrue]
    have hrm2 : remove_favorite_request
        (favs ++ [({ collection_uid := uid, path := p } : FavoriteRequest)])
        uid p = favs := by
      rw [remove_favorite_request, List.filter_append]
      have hleft : List.filter
          (fun f => !(f.collection_uid == uid && f.path == p)) favs = favs := by
        have hx := remove_of_not_favorite favs uid p h
        rwa [remove_favorite_request] at hx
      rw [hleft]
      simp
    rw [hrm2]

/-- C5: toggling a favorite (collection, path) pair twice leaves the
favorites-overlay membership unchanged at every pair, and never touches
the collection tree or any leaf's content. -/
theorem toggle_favorite_twice_identity (s : FavState) (uid : String)
    (p : List Nat) (uid' : String) (p' : List Nat) :
    is_request_favorite
        ((toggle_favorite_state (toggle_favorite_state s uid p) uid p).favorite_requests)
        uid' p' =
      is_request_favorite s.favorite_requests uid' p' ∧
    (toggle_favorite_state (toggle_favorite_state s uid p) uid p).items = s.items ∧
    ∀ q, get_item_at_path
        (toggle_favorite_state (toggle_favorite_state s uid p) uid p).items q =
      get_item_at_path s.items q := by
  refine ⟨toggle_pair_twice s.favorite_requests uid p uid' p', rfl, fun q => rfl⟩

/-- C3: `get_item_at_path` is total (a Lean function built from
structural recursion on the path); it answers `some` with the node's
name, payload (for a leaf) and id exactly when the path addresses a
node, and `none` — never a failure — whenever the descent misses (empty
path, out-of-range index, or a path continuing past a leaf, which are
the cases where `nodeAtPath` is `none`). -/
theorem get_item_at_path_total_spec (items : List Item) (p : List Nat) :
    get_item_at_path items p = (nodeAtPath items p).map itemInfo ∧
    (∀ item, nodeAtPath items p = some item →
      get_item_at_path items p = some (itemInfo item)) ∧
    (nodeAtPath items p = none → get_item_at_path items p = none) ∧
    get_item_at_path items [] = none := by
  have h := get_item_at_path_eq_nodeAtPath items p
  refine ⟨h, ?_, ?_, rfl⟩
  · intro item hitem
    rw [h, hitem]
    rfl
  · intro hnone
    rw [h, hnone]
    rfl

theorem countItems_append (a b : List Item) :
    countItems (a ++ b) = countItems a + countItems b := by
  induction a with
  | nil => simp [countItems]
  | cons x rest ih => rw [List.cons_append, countItems, countItems, ih]; omega

theorem countItems_set (items : List Item) (i : Nat) (old y : Item)
    (h : items[i]? = some old) :
    countItems (items.set i y) + countItem old = countItems items + countItem y := by
  induction items generalizing i with
  | nil => simp at h
  | cons x rest ih =>
    cases i with
    | zero =>
      simp only [List.getElem?_cons_zero, Option.some_inj] at h
      rw [List.set_cons_zero, countItems, countItems, h]
      omega
    | succ n =>
      simp only [List.getElem?_cons_succ] at h
      rw [List.set_cons_succ, countItems, countItems]
      have := ih n h
      omega

theorem insert_item_count (items : List Item) (p : List Nat) (x : Item) :
    countItems (insert_item_recursive items p x) = countItems items + countItem x := by
  induction p generalizing items with
  | nil =>
    rw [insert_item_recursive, countItems_append, countItems, countItems]
    omega
  | cons index rem ih =>
    rw [insert_item_recursive]
    split
    · rw [countItems_append, countItems, countItems]; omega
    · rename_i name children heq
      have hset := countItems_set items index (Item.folder name children)
        (Item.folder name (insert_item_recursive children rem x)) heq
      rw [countItem, countItem, ih children] at hset
      omega
    · rw [countItems_append, countItems, countItems]; omega

theorem insertStopPath_starts_path (items : List Item) (p : List Nat) :
    ∃ t, insertStopPath items p ++ t = p := by
  induction p generalizing items with
  | nil => exact ⟨[], rfl⟩
  | cons index rem ih =>
    rw [insertStopPath]
    cases h : items[index]? with
    | none => exact ⟨index :: rem, rfl⟩
    | some item =>
      cases item with
      | request id name req => exact ⟨index :: rem, rfl⟩
      | folder name children =>
        obtain ⟨t, ht⟩ := ih children
        exact ⟨t, by rw [List.cons_append, ht]⟩

theorem insertStopPath_of_valid (items : List Item) (p : List Nat)
    (h : (childrenAtPath items p).isSome) : insertStopPath items p = p := by
  induction p generalizing items with
  | nil => rfl
  | cons index rem ih =>
    rw [childrenAtPath] at h
    rw [insertStopPath]
    split
    · rename_i name children heq
      rw [heq] at h
      rw [ih children (by simpa using h)]
    · rename_i hne2
      split at h
      · rename_i name children heq
        exact (hne2 name children heq).elim
      · simp at h

theorem insert_appends_at_stop (items : List Item) (p : List Nat) (x : Item) :
    ∃ cs, childrenAtPath items (insertStopPath items p) = some cs ∧
      childrenAtPath (insert_item_recursive items p x) (insertStopPath items p) =
        some (cs ++ [x]) := by
  induction p generalizing items with
  | nil => exact ⟨items, rfl, rfl⟩
  | cons index rem ih =>
    rw [insertStopPath, insert_item_recursive]
    cases hg : items[index]? with
    | none => exact ⟨items, rfl, rfl⟩
    | some item =>
      cases item with
      | request id name req => exact ⟨items, rfl, rfl⟩
      | folder name children =>
        obtain ⟨cs, h1, h2⟩ := ih children
        refine ⟨cs, ?_, ?_⟩
        · rw [childrenAtPath, hg]
          exact h1
        · rw [childrenAtPath]
          have hlt : index < items.length := by
            by_contra hge
            rw [List.getElem?_eq_none (by omega)] at hg
            cases hg
          rw [List.getElem?_set_eq_of_lt _ (by simpa using hlt)]
          exact h2

/-- C8: insertion never rejects — for every item list, target path and
new node, the node is inserted exactly once (the total node count grows
by the inserted subtree's size, i.e. by one for the single request nodes
the app creates); when the whole path is a valid chain of folders the
node is appended to that folder's children; when the path goes bad
partway (out-of-range index or a request in the way) the node is
appended at the last valid folder level reached, `insertStopPath` —
always an initial run of the target path. -/
theorem insert_item_never_rejects (items : List Item) (p : List Nat) (x : Item) :
    countItems (insert_item_at_path items p x) = countItems items + countItem x ∧
    (∀ id name req, countItem (Item.request id name req) = 1) ∧
    (∃ t, insertStopPath items p ++ t = p) ∧
    ((childrenAtPath items p).isSome → insertStopPath items p = p) ∧
    (∃ cs, childrenAtPath items (insertStopPath items p) = some cs ∧
      childrenAtPath (insert_item_at_path items p x) (insertStopPath items p) =
        some (cs ++ [x])) := by
  exact ⟨insert_item_count items p x, fun id name req => rfl,
    insertStopPath_starts_path items p,
    insertStopPath_of_valid items p,
    insert_appends_at_stop items p x⟩

theorem flatten_from_no_sentinel (items : List Item) (depth : Nat)
    (pre : List Nat) (E : List (List Nat)) (i : Nat)
    (hbound : i + items.length ≤ usizeMax)
    (hwf : arityOkItems items = true)
    (hpre : ∀ a, a ∈ pre → a ≠ usizeMax)
    (r : FlatItem) (hr : r ∈ flatten_recursive_from items depth pre E i) :
    ∀ a, a ∈ r.path → a ≠ usizeMax := by
  cases items with
  | nil => simp [flatten_recursive_from] at hr
  | cons head rest =>
    have hwf1 : arityOkItem head = true ∧ arityOkItems rest = true := by
      rw [arityOkItems] at hwf
      exact ⟨by simp_all, by simp_all⟩
    have hi : i ≠ usizeMax := by
      simp only [List.length_cons] at hbound
      omega
    cases head with
    | folder name children =>
      have hch : children.length ≤ usizeMax ∧ arityOkItems children = true := by
        have := hwf1.1
        rw [arityOkItem] at this
        exact ⟨by simp_all, by simp_all⟩
      rw [flatten_recursive_from] at hr
      simp only [List.mem_cons, List.mem_append] at hr
      rcases hr with hr | hr | hr
      · intro a ha
        rw [hr] at ha
        simp only [List.mem_append, List.mem_singleton] at ha
        rcases ha with ha | ha
        · exact hpre a ha
        · rw [ha]; exact hi
      · by_cases hexp : E.contains (pre ++ [i]) = true
        · rw [if_pos hexp] at hr
          refine flatten_from_no_sentinel children (depth + 1) (pre ++ [i]) E 0
            (by omega) hch.2 ?_ r hr
          intro a ha
          simp only [List.mem_append, List.mem_singleton] at ha
          rcases ha with ha | ha
          · exact hpre a ha
          · rw [ha]; exact hi
        · rw [if_neg hexp] at hr
          simp at hr
      · refine flatten_from_no_sentinel rest depth pre E (i + 1)
          (by simp only [List.length_cons] at hbound; omega) hwf1.2 hpre r hr
    | request id name req =>
      rw [flatten_recursive_from] at hr
      simp only [List.mem_cons] at hr
      rcases hr with hr | hr
      · intro a ha
        rw [hr] at ha
        simp only [List.mem_append, List.mem_singleton] at ha
        rcases ha with ha | ha
        · exact hpre a ha
        · rw [ha]; exact hi
      · refine flatten_from_no_sentinel rest depth pre E (i + 1)
          (by simp only [List.length_cons] at hbound; omega) hwf1.2 hpre r hr
  termination_by sizeOf items

theorem flatten_items_row_paths (items : List Item) (E : List (List Nat))
    (uid : String) (favs : List FavoriteRequest)
    (hwf : treeArityOk items = true)
    (hfavs : ∀ f, f ∈ favs → usizeMax ∉ f.path)
    (r : FlatItem) (hr : r ∈ flatten_items items E uid favs) :
    r.path = [usizeMax] ∨ usizeMax ∉ r.path := by
  rw [treeArityOk, Bool.and_eq_true, decide_eq_true_eq] at hwf
  rw [flatten_items] at hr
  simp only [List.mem_append] at hr
  rcases hr with hr | hr
  · by_cases hfe : (favoritePathsOf favs uid).isEmpty = true
    · rw [if_pos hfe] at hr
      simp at hr
    · rw [if_neg hfe] at hr
      simp only [List.mem_cons] at hr
      rcases hr with hr | hr
      · left; rw [hr]
      · right
        by_cases hx : favoritesExpandedOf E = true
        · rw [if_pos hx] at hr
          have hspec := favoriteRows_row_spec items _ r hr
          have hp := hspec.2.2.1
          rw [favoritePathsOf] at hp
          simp only [List.mem_map, List.mem_filter] at hp
          obtain ⟨f, ⟨hf, -⟩, hfp⟩ := hp
          rw [← hfp]
          exact hfavs f hf
        · rw [if_neg hx] at hr
          simp at hr
  · right
    intro hmem
    exact flatten_from_no_sentinel items 0 [] E 0 (by omega) hwf.2
      (by simp) r hr usizeMax hmem rfl

theorem toggle_pair_preserves_no_sentinel (favs : List FavoriteRequest)
    (uid2 : String) (P : List Nat)
    (hfavs : ∀ f, f ∈ favs → usizeMax ∉ f.path) (hP : usizeMax ∉ P) :
    ∀ f, f ∈ toggle_favorite_pair favs uid2 P → usizeMax ∉ f.path := by
  intro f hf
  rw [toggle_favorite_pair] at hf
  rcases Bool.eq_false_or_eq_true (is_request_favorite favs uid2 P) with hb | hb
  · rw [if_pos hb, remove_favorite_request, List.mem_filter] at hf
    exact hfavs f hf.1
  · rw [if_neg (by simp [hb]), add_favorite_request] at hf
    by_cases hm : ({ collection_uid := uid2, path := P } : FavoriteRequest) ∈ favs
    · rw [if_pos hm] at hf
      exact hfavs f hf
    · rw [if_neg hm] at hf
      simp only [List.mem_append, List.mem_singleton] at hf
      rcases hf with hf | hf
      · exact hfavs f hf
      · rw [hf]
        simpa using hP

/-- C7: the sentinel `usize::MAX` never reaches persisted state.  The
path `save_last_state` persists never holds the sentinel (a selected
path containing it is replaced by the empty path); `set_last_workspace`
sanitizes any stored path the same way; the requests-pane favorite
toggle starting from a sentinel-free overlay over projection rows of a
Vec-sized tree only ever stores sentinel-free paths; and the Favorites
pseudo-folder row itself can never be favorited. -/
theorem sentinel_never_persisted (items : List Item) (E : List (List Nat))
    (uid uid2 : String) (favs : List FavoriteRequest) (idx : Nat)
    (hwf : treeArityOk items = true)
    (hfavs : ∀ f, f ∈ favs → usizeMax ∉ f.path) :
    (∀ flat_items i, usizeMax ∉ save_last_state_path flat_items i) ∧
    (∀ last w st, set_last_workspace last w = some st →
      usizeMax ∉ st.request_path) ∧
    (∀ f, f ∈ toggle_favorite_requests_pane (flatten_items items E uid favs)
        idx uid2 favs → usizeMax ∉ f.path) ∧
    (∀ rows i u fs, (rows.getD i default).path = [usizeMax] →
      toggle_favorite_requests_pane rows i u fs = fs) := by
  refine ⟨?_, ?_, ?_, ?_⟩
  · intro flat_items i
    rw [save_last_state_path]
    by_cases he : flat_items.isEmpty = true
    · rw [if_pos he]; simp
    · rw [if_neg he]
      rcases Bool.eq_false_or_eq_true
          (((flat_items.getD i default).path).contains usizeMax) with hc | hc
      · rw [if_pos hc]; simp
      · rw [if_neg (by rw [Bool.not_eq_true]; exact hc)]
        exact not_mem_of_contains_eq_false hc
  · intro last w st hset
    cases last with
    | some st0 =>
      rw [set_last_workspace] at hset
      simp only [Option.some_inj] at hset
      rw [← hset]
      rcases Bool.eq_false_or_eq_true (st0.request_path.contains usizeMax)
        with hc | hc
      · simp [hc]
      · have hnm : usizeMax ∉ st0.request_path := by simpa using hc
        simp [hc, hnm]
    | none =>
      cases w with
      | some id =>
        rw [set_last_workspace] at hset
        simp only [Option.some_inj] at hset
        rw [← hset]
        simp
      | none =>
        rw [set_last_workspace] at hset
        cases hset
  · intro f hf
    rw [toggle_favorite_requests_pane] at hf
    by_cases he : (flatten_items items E uid favs).isEmpty = true
    · rw [if_pos he] at hf
      exact hfavs f hf
    · rw [if_neg he] at hf
      simp only at hf
      by_cases hsent : ((flatten_items items E uid favs).getD idx default).path
          = [usizeMax]
      · rw [if_pos hsent] at hf
        exact hfavs f hf
      · rw [if_neg hsent] at hf
        refine toggle_pair_preserves_no_sentinel favs uid2 _ hfavs ?_ f hf
        rcases hrow : (flatten_items items E uid favs)[idx]? with _ | row
        · rw [List.getD_eq_getElem?_getD, hrow]
          simp [default]
        · have hmem := List.getElem?_mem hrow
          have hdisj := flatten_items_row_paths items E uid favs hwf hfavs row hmem
          rw [List.getD_eq_getElem?_getD, hrow]
          simp only [Option.getD_some]
          rcases hdisj with hl | hl
          · rw [List.getD_eq_getElem?_getD, hrow] at hsent
            simp only [Option.getD_some] at hsent
            exact absurd hl hsent
          · exact hl
  · intro rows i u fs hpath
    rw [toggle_favorite_requests_pane]
    by_cases he : rows.isEmpty = true
    · rw [if_pos he]
    · rw [if_neg he]
      simp only
      rw [if_pos hpath]

/-- Witness for C7 at a concrete tree and overlay: the hypotheses hold
for `exTree` / `exFavsRev` and the theorem applies. -/
theorem sentinel_never_persisted_witness :
    treeArityOk exTree = true ∧
    (∀ f, f ∈ exFavsRev → usizeMax ∉ f.path) ∧
    ((∀ flat_items i, usizeMax ∉ save_last_state_path flat_items i) ∧
      (∀ last w st, set_last_workspace last w = some st →
        usizeMax ∉ st.request_path) ∧
      (∀ f, f ∈ toggle_favorite_requests_pane
          (flatten_items exTree [] "u" exFavsRev) 0 "u" exFavsRev →
        usizeMax ∉ f.path) ∧
      (∀ rows i u fs, (rows.getD i default).path = [usizeMax] →
        toggle_favorite_requests_pane rows i u fs = fs)) :=
  ⟨by decide, by decide,
    sentinel_never_persisted exTree [] "u" "u" exFavsRev 0
      (by decide) (by decide)⟩

/-- Witness for C4: the already-lowercased query "oo" on the example
tree. -/
theorem search_matches_preorder_and_resolves_witness :
    strLower "oo" = "oo" ∧ "oo" ≠ "" ∧
    (search_items_recursive exTree "oo" [] =
      (preorderEntries exTree).filterMap
        (fun e => if ciContains e.2 "oo" then some e.1 else none) ∧
    ∀ p, p ∈ search_items_recursive exTree "oo" [] →
      (get_item_at_path exTree p).isSome) :=
  ⟨by decide, by decide,
    search_matches_preorder_and_resolves exTree "oo" (by decide) (by decide)⟩

theorem update_search_matches_fields (s : SearchApp) :
    (update_search_matches s).pre_search_index = s.pre_search_index ∧
    (update_search_matches s).focused_pane = s.focused_pane ∧
    (update_search_matches s).expanded_folders = s.expanded_folders := by
  rw [update_search_matches]
  by_cases hq : s.search_query = ""
  · rw [if_pos hq]; exact ⟨rfl, rfl, rfl⟩
  · rw [if_neg hq]
    cases hp : s.focused_pane <;> exact ⟨rfl, rfl, rfl⟩

theorem jump_to_current_match_fields (s : SearchApp) :
    (jump_to_current_match s).pre_search_index = s.pre_search_index ∧
    (jump_to_current_match s).focused_pane = s.focused_pane := by
  rw [jump_to_current_match]
  split
  · split
    · exact ⟨rfl, rfl⟩
    · exact ⟨rfl, rfl⟩
  · split
    · simp only
      split
      · exact ⟨rfl, rfl⟩
      · exact ⟨rfl, rfl⟩
    · exact ⟨rfl, rfl⟩
  · exact ⟨rfl, rfl⟩

theorem search_jump_if_matches_fields (s : SearchApp) :
    (search_jump_if_matches s).pre_search_index = s.pre_search_index ∧
    (search_jump_if_matches s).focused_pane = s.focused_pane := by
  rw [search_jump_if_matches]
  split
  · exact jump_to_current_match_fields { s with current_match_index := 0 }
  · exact ⟨rfl, rfl⟩

theorem search_input_char_fields (s : SearchApp) (c : Char) :
    (search_input_char s c).pre_search_index = s.pre_search_index ∧
    (search_input_char s c).focused_pane = s.focused_pane := by
  rw [search_input_char]
  have h1 := update_search_matches_fields
    { s with search_query := s.search_query.push c }
  have h2 := search_jump_if_matches_fields
    (update_search_matches { s with search_query := s.search_query.push c })
  exact ⟨by rw [h2.1, h1.1], by rw [h2.2, h1.2.1]⟩

theorem apply_search_chars_fields (s : SearchApp) (cs : List Char) :
    (apply_search_chars s cs).pre_search_index = s.pre_search_index ∧
    (apply_search_chars s cs).focused_pane = s.focused_pane := by
  induction cs generalizing s with
  | nil => exact ⟨rfl, rfl⟩
  | cons c rest ih =>
    rw [apply_search_chars, List.foldl_cons]
    have h1 := search_input_char_fields s c
    have h2 := ih (search_input_char s c)
    rw [apply_search_chars] at h2
    exact ⟨by rw [h2.1, h1.1], by rw [h2.2, h1.2]⟩

/-- C6 (amended): starting a search on the requests pane, typing any
characters (each keystroke recomputes matches and may expand folders
while jumping), then cancelling: the cancel restores the selection index
that was current when the search began, clears the query and the
collections-pane match list (`search_matches`), and leaves both the
expanded-folder set and the requests-pane match list
(`search_match_paths`) exactly as they stood at the moment of
cancellation — the expansions made while typing are not reverted, and
the stale path matches are only dropped by the next search
recomputation, not by the cancel. -/
theorem cancel_search_restores (s : SearchApp) (cs : List Char)
    (hpane : s.focused_pane = FocusedPane.requests) :
    (cancel_search (apply_search_chars (start_search s) cs)).selected_item_index
      = s.selected_item_index ∧
    (cancel_search (apply_search_chars (start_search s) cs)).search_query = "" ∧
    (cancel_search (apply_search_chars (start_search s) cs)).search_matches = [] ∧
    (cancel_search (apply_search_chars (start_search s) cs)).expanded_folders
      = (apply_search_chars (start_search s) cs).expanded_folders ∧
    (cancel_search (apply_search_chars (start_search s) cs)).search_match_paths
      = (apply_search_chars (start_search s) cs).search_match_paths := by
  have hstart : (start_search s).pre_search_index = s.selected_item_index ∧
      (start_search s).focused_pane = FocusedPane.requests := by
    rw [start_search, if_neg (by rw [hpane]; intro h; cases h), hpane]
    exact ⟨rfl, rfl⟩
  have hchain := apply_search_chars_fields (start_search s) cs
  have hpre : (apply_search_chars (start_search s) cs).pre_search_index
      = s.selected_item_index := by rw [hchain.1, hstart.1]
  have hpane2 : (apply_search_chars (start_search s) cs).focused_pane
      = FocusedPane.requests := by rw [hchain.2, hstart.2]
  rw [cancel_search]
  refine ⟨?_, ?_, ?_, ?_, ?_⟩ <;> simp [hpane2, hpre]

/-- Witness for C6: typing "b" after starting a search on the requests
pane and cancelling. -/
theorem cancel_search_restores_witness :
    exSearchApp.focused_pane = FocusedPane.requests ∧
    ((cancel_search
        (apply_search_chars (start_search exSearchApp) ['b'])).selected_item_index
      = exSearchApp.selected_item_index ∧
    (cancel_search
        (apply_search_chars (start_search exSearchApp) ['b'])).search_query = "" ∧
    (cancel_search
        (apply_search_chars (start_search exSearchApp) ['b'])).search_matches = [] ∧
    (cancel_search
        (apply_search_chars (start_search exSearchApp) ['b'])).expanded_folders
      = (apply_search_chars (start_search exSearchApp) ['b']).expanded_folders ∧
    (cancel_search
        (apply_search_chars (start_search exSearchApp) ['b'])).search_match_paths
      = (apply_search_chars (start_search exSearchApp) ['b']).search_match_paths) :=
  ⟨rfl, cancel_search_restores exSearchApp ['b'] rfl⟩

theorem obj_entry_head_eq (k : String) (v : Json) (q : String)
    (childPath : List JsonPathSegment) :
    (if strContains (strLower k) q then [childPath]
     else
       match v with
       | Json.str sv => if strContains (strLower sv) q then [childPath] else []
       | Json.num n => if strContains n q then [childPath] else []
       | _ => []) =
    (if entryMatches (some k) v q then [childPath] else []) := by
  cases v <;> rw [entryMatches] <;>
    by_cases hk : strContains (strLower k) q = true <;> simp [hk]

theorem arr_entry_head_eq (v : Json) (q : String)
    (childPath : List JsonPathSegment) :
    (match v with
     | Json.str sv => if strContains (strLower sv) q then [childPath] else []
     | Json.num n => if strContains n q then [childPath] else []
     | _ => []) =
    (if entryMatches none v q then [childPath] else []) := by
  cases v <;> rw [entryMatches] <;> simp

mutual

theorem find_matches_eq (v : Json) (path : List JsonPathSegment) (q : String) :
    find_matches v path q =
      (jsonEntries v path).filterMap
        (fun e => if entryMatches e.2.1 e.2.2 q then some e.1 else none) := by
  cases v with
  | obj entries =>
    rw [show find_matches (Json.obj entries) path q
        = find_matches_obj entries path q from rfl]
    rw [show jsonEntries (Json.obj entries) path
        = jsonEntriesObj entries path from rfl]
    exact find_matches_obj_eq entries path q
  | arr elems =>
    rw [show find_matches (Json.arr elems) path q
        = find_matches_arr elems 0 path q from rfl]
    rw [show jsonEntries (Json.arr elems) path
        = jsonEntriesArr elems 0 path from rfl]
    exact find_matches_arr_eq elems 0 path q
  | str sv => rfl
  | num n => rfl
  | jbool b => rfl
  | null => rfl
  termination_by sizeOf v

theorem find_matches_obj_eq (entries : List (String × Json))
    (path : List JsonPathSegment) (q : String) :
    find_matches_obj entries path q =
      (jsonEntriesObj entries path).filterMap
        (fun e => if entryMatches e.2.1 e.2.2 q then some e.1 else none) := by
  cases entries with
  | nil => rfl
  | cons e rest =>
    obtain ⟨k, v⟩ := e
    rw [show find_matches_obj ((k, v) :: rest) path q
        = (if strContains (strLower k) q then [path ++ [JsonPathSegment.key k]]
           else
             match v with
             | Json.str sv =>
                 if strContains (strLower sv) q
                 then [path ++ [JsonPathSegment.key k]] else []
             | Json.num n =>
                 if strContains n q then [path ++ [JsonPathSegment.key k]] else []
             | _ => []) ++
          (find_matches v (path ++ [JsonPathSegment.key k]) q ++
            find_matches_obj rest path q) from rfl]
    rw [show jsonEntriesObj ((k, v) :: rest) path
        = (path ++ [JsonPathSegment.key k], some k, v) ::
          (jsonEntries v (path ++ [JsonPathSegment.key k]) ++
            jsonEntriesObj rest path) from rfl]
    rw [List.filterMap_cons, List.filterMap_append]
    rw [find_matches_eq v (path ++ [JsonPathSegment.key k]) q,
      find_matches_obj_eq rest path q,
      obj_entry_head_eq k v q (path ++ [JsonPathSegment.key k])]
    by_cases hm : entryMatches (some k) v q = true
    · simp [hm]
    · simp [hm]
  termination_by sizeOf entries

theorem find_matches_arr_eq (elems : List Json) (i : Nat)
    (path : List JsonPathSegment) (q : String) :
    find_matches_arr elems i path q =
      (jsonEntriesArr elems i path).filterMap
        (fun e => if entryMatches e.2.1 e.2.2 q then some e.1 else none) := by
  cases elems with
  | nil => rfl
  | cons v rest =>
    rw [show find_matches_arr (v :: rest) i path q
        = (match v with
           | Json.str sv =>
               if strContains (strLower sv) q
               then [path ++ [JsonPathSegment.index i]] else []
           | Json.num n =>
               if strContains n q then [path ++ [JsonPathSegment.index i]] else []
           | _ => []) ++
          (find_matches v (path ++ [JsonPathSegment.index i]) q ++
            find_matches_arr rest (i + 1) path q) from rfl]
    rw [show jsonEntriesArr (v :: rest) i path
        = (path ++ [JsonPathSegment.index i], none, v) ::
          (jsonEntries v (path ++ [JsonPathSegment.index i]) ++
            jsonEntriesArr rest (i + 1) path) from rfl]
    rw [List.filterMap_cons, List.filterMap_append]
    rw [find_matches_eq v (path ++ [JsonPathSegment.index i]) q,
      find_matches_arr_eq rest (i + 1) path q,
      arr_entry_head_eq v q (path ++ [JsonPathSegment.index i])]
    by_cases hm : entryMatches none v q = true
    · simp [hm]
    · simp [hm]
  termination_by sizeOf elems

end

/-- C9 (amended): for a non-empty query, the JSON-viewer search is
exactly the filter of all child positions by `entryMatches`: object keys
match (lowercased), string child values match (lowercased), number
child values match by their text; every reported path is a child
position with a matching entry; a boolean or null child matches only
through its object key — never by value; and a non-container root value
contributes nothing. -/
theorem find_matches_characterization (v : Json)
    (path : List JsonPathSegment) (q : String) (hq : q ≠ "") :
    find_matches v path q =
      (jsonEntries v path).filterMap
        (fun e => if entryMatches e.2.1 e.2.2 q then some e.1 else none) ∧
    (∀ p, p ∈ find_matches v path q →
      ∃ k? val, (p, k?, val) ∈ jsonEntries v path ∧
        entryMatches k? val q = true) ∧
    (∀ k? b, entryMatches k? (Json.jbool b) q =
      (match k? with
       | some k => strContains (strLower k) q
       | none => false)) ∧
    (∀ k?, entryMatches k? Json.null q =
      (match k? with
       | some k => strContains (strLower k) q
       | none => false)) ∧
    (∀ sv, find_matches (Json.str sv) path q = []) ∧
    (∀ n, find_matches (Json.num n) path q = []) := by
  refine ⟨find_matches_eq v path q, ?_, ?_, ?_, fun sv => rfl, fun n => rfl⟩
  · intro p hp
    rw [find_matches_eq] at hp
    obtain ⟨e, he, hfe⟩ := List.mem_filterMap.mp hp
    by_cases hm : entryMatches e.2.1 e.2.2 q = true
    · rw [if_pos hm] at hfe
      obtain rfl : e.1 = p := Option.some_injective _ hfe
      exact ⟨e.2.1, e.2.2, he, hm⟩
    · rw [if_neg hm] at hfe
      cases hfe
  · intro k? b
    cases k? with
    | none => rfl
    | some k => exact Bool.or_false _
  · intro k?
    cases k? with
    | none => rfl
    | some k => exact Bool.or_false _

/-- C9, counterexample to the original claim: on `{"a": true}` the query
"a" matches the key, and the path pushed is exactly the boolean leaf's
path (the claim says a boolean leaf's path is never added); and on the
bare root string "hello" the query "hello" matches nothing (the claim
says string leaf values are matched). -/
theorem find_matches_bool_leaf_cex :
    find_matches (Json.obj [("a", Json.jbool true)])
        [JsonPathSegment.root] "a" =
      [[JsonPathSegment.root, JsonPathSegment.key "a"]] ∧
    jsonEntries (Json.obj [("a", Json.jbool true)]) [JsonPathSegment.root] =
      [([JsonPathSegment.root, JsonPathSegment.key "a"], some "a",
        Json.jbool true)] ∧
    find_matches (Json.str "hello") [JsonPathSegment.root] "hello" = [] := by
  refine ⟨by decide, rfl, rfl⟩

/-- Witness for C9 at `{"a": "x"}` with query "a". -/
theorem find_matches_characterization_witness :
    ("a" : String) ≠ "" ∧
    (find_matches (Json.obj [("a", Json.str "x")]) [JsonPathSegment.root] "a" =
      (jsonEntries (Json.obj [("a", Json.str "x")])
          [JsonPathSegment.root]).filterMap
        (fun e => if entryMatches e.2.1 e.2.2 "a" then some e.1 else none) ∧
    (∀ p, p ∈ find_matches (Json.obj [("a", Json.str "x")])
        [JsonPathSegment.root] "a" →
      ∃ k? val, (p, k?, val) ∈ jsonEntries (Json.obj [("a", Json.str "x")])
          [JsonPathSegment.root] ∧
        entryMatches k? val "a" = true) ∧
    (∀ k? b, entryMatches k? (Json.jbool b) "a" =
      (match k? with
       | some k => strContains (strLower k) "a"
       | none => false)) ∧
    (∀ k?, entryMatches k? Json.null "a" =
      (match k? with
       | some k => strContains (strLower k) "a"
       | none => false)) ∧
    (∀ sv, find_matches (Json.str sv) [JsonPathSegment.root] "a" = []) ∧
    (∀ n, find_matches (Json.num n) [JsonPathSegment.root] "a" = [])) :=
  ⟨by decide,
    find_matches_characterization (Json.obj [("a", Json.str "x")])
      [JsonPathSegment.root] "a" (by decide)⟩

theorem jump_to_current_match_fields2 (s : SearchApp) :
    (jump_to_current_match s).search_query = s.search_query ∧
    (jump_to_current_match s).search_match_paths = s.search_match_paths ∧
    (jump_to_current_match s).current_items = s.current_items := by
  rw [jump_to_current_match]
  split
  · split
    · exact ⟨rfl, rfl, rfl⟩
    · exact ⟨rfl, rfl, rfl⟩
  · split
    · simp only
      split
      · exact ⟨rfl, rfl, rfl⟩
      · exact ⟨rfl, rfl, rfl⟩
    · exact ⟨rfl, rfl, rfl⟩
  · exact ⟨rfl, rfl, rfl⟩

theorem search_jump_if_matches_fields2 (s : SearchApp) :
    (search_jump_if_matches s).search_query = s.search_query ∧
    (search_jump_if_matches s).search_match_paths = s.search_match_paths ∧
    (search_jump_if_matches s).current_items = s.current_items := by
  rw [search_jump_if_matches]
  split
  · exact jump_to_current_match_fields2 { s with current_match_index := 0 }
  · exact ⟨rfl, rfl, rfl⟩

theorem update_search_matches_query_items (s : SearchApp) :
    (update_search_matches s).search_query = s.search_query ∧
    (update_search_matches s).current_items = s.current_items := by
  rw [update_search_matches]
  by_cases hq : s.search_query = ""
  · rw [if_pos hq]; exact ⟨rfl, rfl⟩
  · rw [if_neg hq]
    cases hp : s.focused_pane <;> exact ⟨rfl, rfl⟩

theorem update_search_matches_paths_requests (s : SearchApp)
    (hp : s.focused_pane = FocusedPane.requests)
    (hq : ¬ s.search_query = "") :
    (update_search_matches s).search_match_paths =
      search_items_recursive s.current_items (strLower s.search_query) [] := by
  rw [update_search_matches, if_neg hq, hp]

theorem search_input_char_query (s : SearchApp) (c : Char) :
    (search_input_char s c).search_query = s.search_query.push c := by
  rw [search_input_char]
  rw [(search_jump_if_matches_fields2
    (update_search_matches { s with search_query := s.search_query.push c })).1]
  exact (update_search_matches_query_items _).1

theorem search_input_char_items (s : SearchApp) (c : Char) :
    (search_input_char s c).current_items = s.current_items := by
  rw [search_input_char]
  rw [(search_jump_if_matches_fields2
    (update_search_matches { s with search_query := s.search_query.push c })).2.2]
  exact (update_search_matches_query_items _).2

theorem search_input_char_paths (s : SearchApp) (c : Char)
    (hp : s.focused_pane = FocusedPane.requests)
    (hq : ¬ s.search_query.push c = "") :
    (search_input_char s c).search_match_paths =
      search_items_recursive s.current_items
        (strLower (s.search_query.push c)) [] := by
  rw [search_input_char]
  rw [(search_jump_if_matches_fields2
    (update_search_matches { s with search_query := s.search_query.push c })).2.1]
  exact update_search_matches_paths_requests
    { s with search_query := s.search_query.push c } hp hq

theorem cancel_search_clears_query_keeps_paths (s : SearchApp) :
    (cancel_search s).search_query = "" ∧
    (cancel_search s).search_match_paths = s.search_match_paths := by
  cases hp : s.focused_pane <;> simp [cancel_search, hp]

/-- C6, counterexample to the original claim's "clears the match list":
on the requests pane the match list populated by typing is
`search_match_paths`; typing "oo" after starting a search fills it with
the path of "foo", and cancelling clears the query but provably leaves
`search_match_paths` still holding that match. -/
theorem cancel_search_keeps_match_paths_cex :
    (apply_search_chars (start_search exSearchApp) ['o', 'o']).search_match_paths
      = [[0, 0]] ∧
    (cancel_search (apply_search_chars
        (start_search exSearchApp) ['o', 'o'])).search_match_paths = [[0, 0]] ∧
    (cancel_search (apply_search_chars
        (start_search exSearchApp) ['o', 'o'])).search_query = "" := by
  have hpaths : (apply_search_chars
      (start_search exSearchApp) ['o', 'o']).search_match_paths = [[0, 0]] := by
    rw [apply_search_chars, List.foldl_cons, List.foldl_cons, List.foldl_nil]
    have h1p : (search_input_char (start_search exSearchApp) 'o').focused_pane
        = FocusedPane.requests := by
      rw [(search_input_char_fields (start_search exSearchApp) 'o').2]
      rfl
    have h1q : (search_input_char (start_search exSearchApp) 'o').search_query
        = "o" := by
      rw [search_input_char_query]
      rw [show (start_search exSearchApp).search_query = "" from rfl]
      decide
    have h1i : (search_input_char (start_search exSearchApp) 'o').current_items
        = exTree := by
      rw [search_input_char_items]
      rfl
    rw [search_input_char_paths _ 'o' h1p (by rw [h1q]; decide)]
    rw [h1i, h1q]
    rw [show ("o".push 'o' : String) = "oo" from by decide]
    simp [search_items_recursive, search_items_from, exTree, strContains,
      strLower, charsContain, startsWithChars]
  have hcancel := cancel_search_clears_query_keeps_paths
    (apply_search_chars (start_search exSearchApp) ['o', 'o'])
  exact ⟨hpaths, by rw [hcancel.2, hpaths], hcancel.1⟩
